import Mathlib

/-!
Verification of the TMR sensor-array simulation pipeline.

The development embeds, over exact arithmetic, the core of the repository:
sensor placement and failure marking, signal synthesis, analog front-end
conditioning, ADC conversion, harmonic demodulation and angle unwrapping,
result analysis, and Monte Carlo batch orchestration.  Python float
expressions are embedded over the real or rational numbers; the floored
modulus of Python (the percent operator on floats) is embedded as
subtraction of the scaled floor the way numpy computes it.
-/

namespace TMR

/-- Floored modulus into the interval from 0 to 360: the value of the Python
float expression x % 360, and equally of the while-loop normalisation used in
TMRSensorModel.extract_harmonics. -/
def mod360 {α : Type} [LinearOrderedField α] [FloorRing α] (x : α) : α :=
  x - 360 * ⌊x / 360⌋

theorem mod360_eq_fract {α : Type} [LinearOrderedField α] [FloorRing α] (x : α) :
    mod360 x = 360 * Int.fract (x / 360) := by
  unfold mod360 Int.fract
  ring

theorem mod360_nonneg {α : Type} [LinearOrderedField α] [FloorRing α] (x : α) :
    0 ≤ mod360 x := by
  rw [mod360_eq_fract]
  have h := Int.fract_nonneg (x / 360)
  nlinarith

theorem mod360_lt {α : Type} [LinearOrderedField α] [FloorRing α] (x : α) :
    mod360 x < 360 := by
  rw [mod360_eq_fract]
  have h := Int.fract_lt_one (x / 360)
  nlinarith

theorem mod360_of_mem {α : Type} [LinearOrderedField α] [FloorRing α] (x : α)
    (h0 : 0 ≤ x) (h1 : x < 360) : mod360 x = x := by
  unfold mod360
  have hf : ⌊x / 360⌋ = 0 := by
    rw [Int.floor_eq_zero_iff]
    constructor
    · positivity
    · rw [div_lt_one (by norm_num : (0:α) < 360)]
      exact h1
  rw [hf]
  ring

/-- Nominal golden-angle sensor positions: position of sensor i is
(i * 137.5) mod 360, from _calculate_sensor_positions. -/
def sensor_positions (num_sensors : ℕ) : List ℚ :=
  (List.range num_sensors).map (fun i : ℕ => mod360 ((i : ℚ) * (275 / 2)))

/-- Batch size used by run_parallel_monte_carlo:
batch_size = max(1, num_runs // workers). -/
def batch_size (num_runs workers : ℕ) : ℕ := max 1 (num_runs / workers)

/-- Number of batches used by run_parallel_monte_carlo (ceiling division):
num_batches = (num_runs + batch_size - 1) // batch_size. -/
def num_batches (num_runs workers : ℕ) : ℕ :=
  (num_runs + batch_size num_runs workers - 1) / batch_size num_runs workers

/-- Run ids executed by one batch in run_monte_carlo_batch:
range(batch_id * batch_size, batch_id * batch_size + batch_size). -/
def batch_run_ids (num_runs workers batch_id : ℕ) : List ℕ :=
  List.range' (batch_id * batch_size num_runs workers) (batch_size num_runs workers)

/-- All run ids collected by run_parallel_monte_carlo: pool.map over the
batches followed by flattening of the per-batch result lists. -/
def campaign_run_ids (num_runs workers : ℕ) : List ℕ :=
  (List.range (num_batches num_runs workers)).flatMap (batch_run_ids num_runs workers)

theorem campaign_run_ids_length (num_runs workers : ℕ) :
    (campaign_run_ids num_runs workers).length =
      num_batches num_runs workers * batch_size num_runs workers := by
  unfold campaign_run_ids batch_run_ids
  rw [List.length_flatMap]
  have h : (List.length ∘ fun batch_id =>
      List.range' (batch_id * batch_size num_runs workers) (batch_size num_runs workers)) =
      fun _ : ℕ => batch_size num_runs workers := by
    funext b
    simp
  rw [h, List.map_const', List.sum_replicate, List.length_range, smul_eq_mul, mul_comm]

/-- Sampling without replacement, the behaviour of
np.random.choice(population, k, replace=False): it raises ValueError exactly
when k exceeds the population size; otherwise it returns k distinct elements
of the population, modelled as the first k entries of the permutation of the
population selected by the random generator (the shuffle argument). -/
def np_random_choice (population : List ℕ) (k : ℕ) (shuffle : List ℕ) :
    Except String (List ℕ) :=
  if k ≤ population.length then Except.ok (shuffle.take k)
  else Except.error "Cannot take a larger sample than population when replace=False"

/-- set_failed_sensors from both sensor models: resets the failed list, and for
num_failures > 0 draws that many distinct sensors via np.random.choice on
range(num_sensors).  No validation of num_failures against num_sensors is
performed by the method itself. -/
def set_failed_sensors (num_sensors num_failures : ℕ) (shuffle : List ℕ) :
    Except String (List ℕ) :=
  if 0 < num_failures then np_random_choice (List.range num_sensors) num_failures shuffle
  else Except.ok []

/-- run_monte_carlo_batch: iterates run_single_monte_carlo over the run ids of
the batch, appending each result.  The loop body has no exception handler, so
a failing run propagates its exception out of the batch (modelled by the
Except monad: the first error aborts the fold and no result list is
produced). -/
def run_monte_carlo_batch {α : Type} (run_single : ℕ → Except String α) :
    List ℕ → Except String (List α)
  | [] => Except.ok []
  | r :: rs =>
    match run_single r with
    | Except.error e => Except.error e
    | Except.ok v =>
      match run_monte_carlo_batch run_single rs with
      | Except.error e => Except.error e
      | Except.ok vs => Except.ok (v :: vs)

/-- C9: for every sensor count N of at most 64, the nominal golden-angle sensor
positions (i * 137.5) mod 360 for i below N are pairwise distinct. -/
theorem sensor_positions_nodup (num_sensors : ℕ) (h : num_sensors ≤ 64) :
    (sensor_positions num_sensors).Nodup := by
  unfold sensor_positions
  refine (List.nodup_range _).map_on ?_
  intro i hi j hj hij
  rw [List.mem_range] at hi hj
  have hi64 : i < 64 := lt_of_lt_of_le hi h
  have hj64 : j < 64 := lt_of_lt_of_le hj h
  unfold mod360 at hij
  have key : ((275 * (i:ℤ) - 720 * ⌊(i : ℚ) * (275 / 2) / 360⌋ : ℤ) : ℚ) =
      ((275 * (j:ℤ) - 720 * ⌊(j : ℚ) * (275 / 2) / 360⌋ : ℤ) : ℚ) := by
    push_cast
    linarith
  have keyz : (275 * (i:ℤ) - 720 * ⌊(i : ℚ) * (275 / 2) / 360⌋ : ℤ) =
      275 * (j:ℤ) - 720 * ⌊(j : ℚ) * (275 / 2) / 360⌋ := by
    exact_mod_cast key
  have hij' : (i:ℤ) = j := by omega
  exact_mod_cast hij'

/-- Witness for C9 at the default configuration of 8 sensors. -/
theorem sensor_positions_nodup_witness : 8 ≤ 64 ∧ (sensor_positions 8).Nodup :=
  ⟨by norm_num, sensor_positions_nodup 8 (by norm_num)⟩

/-- C8 counterexample: with numRuns = 10 and workers = 3 the batching of
run_parallel_monte_carlo collects 12 run results, not 10 — the collected
result list does not have length numRuns. -/
theorem campaign_run_ids_length_ne : (campaign_run_ids 10 3).length ≠ 10 := by
  decide

/-- C8 amended: the parallel campaign collects exactly
num_batches * batch_size run results; this is always at least numRuns but can
strictly exceed it when batch_size does not divide numRuns (batching neither
drops runs nor keeps the total equal to numRuns). -/
theorem campaign_run_ids_length_ge (num_runs workers : ℕ)
    (hn : 1 ≤ num_runs) (_hw : 1 ≤ workers) :
    num_runs ≤ (campaign_run_ids num_runs workers).length := by
  rw [campaign_run_ids_length]
  set bs := batch_size num_runs workers with hbs
  have hbs1 : 1 ≤ bs := le_max_left 1 _
  have hdm := Nat.div_add_mod (num_runs + bs - 1) bs
  have hlt : (num_runs + bs - 1) % bs < bs := Nat.mod_lt _ (by omega)
  unfold num_batches
  rw [← hbs, mul_comm]
  generalize hq : bs * ((num_runs + bs - 1) / bs) = t at hdm ⊢
  generalize hr : (num_runs + bs - 1) % bs = r at hdm hlt
  omega

/-- Witness for C8 amended at numRuns = 10 and workers = 3. -/
theorem campaign_run_ids_length_ge_witness :
    1 ≤ 10 ∧ 1 ≤ 3 ∧ 10 ≤ (campaign_run_ids 10 3).length :=
  ⟨by norm_num, by norm_num, campaign_run_ids_length_ge 10 3 (by norm_num) (by norm_num)⟩

/-- C6: set_failed_sensors performs no validation of the failure count: asked
to fail all 8 of 8 sensors it succeeds and marks every sensor failed, leaving
no active sensor (the failed-set invariant is violated and no
ConfigurationError exists anywhere in the code); only for counts strictly
above the sensor count does numpy itself raise, and then a ValueError. -/
theorem set_failed_sensors_no_guard :
    set_failed_sensors 8 8 (List.range 8) = Except.ok (List.range 8) ∧
      (List.range 8).length = 8 ∧
      set_failed_sensors 8 9 (List.range 8) =
        Except.error "Cannot take a larger sample than population when replace=False" :=
  ⟨rfl, rfl, rfl⟩

/-- C7: a failing Monte Carlo run is not caught anywhere in
run_monte_carlo_batch: the batch aborts with the exception of the failing run
and produces no result list at all, instead of excluding the failed run,
counting it, and completing the remaining runs of the batch. -/
theorem run_monte_carlo_batch_aborts :
    run_monte_carlo_batch
        (fun run_id => if run_id = 1 then Except.error "run failure" else Except.ok run_id)
        [0, 1, 2] = Except.error "run failure" := rfl

noncomputable section

open Real

/-- Conversion of degrees to radians: np.radians. -/
def radians (x : ℝ) : ℝ := x * (Real.pi / 180)

/-- Two-argument arctangent in degrees: np.degrees(np.arctan2 y x).  The
argument function of a complex number realises atan2 of (y, x); like numpy it
maps the origin to 0, and its range is the half-open interval from -180
excluded to 180 included. -/
def atan2deg (y x : ℝ) : ℝ := Complex.arg (Complex.mk x y) * (180 / Real.pi)

theorem atan2deg_zero : atan2deg 0 0 = 0 := by
  have h : Complex.mk 0 0 = 0 := by
    apply Complex.ext <;> simp
  rw [atan2deg, h, Complex.arg_zero, zero_mul]

theorem atan2deg_mem_Ioc (y x : ℝ) : atan2deg y x ∈ Set.Ioc (-180 : ℝ) 180 := by
  have hpi := Real.pi_pos
  have hlo := Complex.neg_pi_lt_arg (Complex.mk x y)
  have hhi := Complex.arg_le_pi (Complex.mk x y)
  have hscale : (0:ℝ) < 180 / Real.pi := by positivity
  constructor
  · have := (mul_lt_mul_of_pos_right hlo hscale)
    calc (-180 : ℝ) = -Real.pi * (180 / Real.pi) := by
          field_simp
          ring
      _ < _ := this
  · have := (mul_le_mul_of_nonneg_right hhi (le_of_lt hscale))
    calc Complex.arg (Complex.mk x y) * (180 / Real.pi)
          ≤ Real.pi * (180 / Real.pi) := this
      _ = 180 := by field_simp

/-- Folding of an arctangent value into [0, 360): the conditional add of 360
applied to fund_phase and harm_phase in extract_harmonics. -/
def fold_phase (a : ℝ) : ℝ := if a < 0 then a + 360 else a

theorem fold_phase_mem_Ico {a : ℝ} (h : a ∈ Set.Ioc (-180 : ℝ) 180) :
    fold_phase a ∈ Set.Ico (0 : ℝ) 360 := by
  obtain ⟨h1, h2⟩ := h
  unfold fold_phase
  split_ifs with hneg
  · constructor <;> linarith
  · constructor <;> linarith

/-- Output record of extract_harmonics: the results dictionary of the
demodulator. -/
structure DemodResult where
  fund_sin : ℝ
  fund_cos : ℝ
  fund_phase : ℝ
  harm_sin : ℝ
  harm_cos : ℝ
  harm_phase : ℝ
  sector : ℤ
  unwrapped : ℝ
  error : ℝ

/-- RefinedTMRSensorModel.extract_harmonics: synchronous demodulation of the
signal vector at the fundamental and at the Pth harmonic, normalisation by the
active-sensor count when it is positive, phase extraction through arctan2,
sector computation, vernier unwrapping, and signed-error wrapping.  Failed
sensors are skipped in the correlation sums. -/
def extract_harmonics (num_sensors pole_pairs : ℕ) (pos sig : ℕ → ℝ)
    (failed : Finset ℕ) (theta : ℝ) : DemodResult :=
  let active := (Finset.range num_sensors).filter (fun i => i ∉ failed)
  let k : ℕ := num_sensors - failed.card
  let fs0 := ∑ i ∈ active, sig i * Real.sin (radians (pos i))
  let fc0 := ∑ i ∈ active, sig i * Real.cos (radians (pos i))
  let hs0 := ∑ i ∈ active, sig i * Real.sin (radians ((pole_pairs : ℝ) * pos i))
  let hc0 := ∑ i ∈ active, sig i * Real.cos (radians ((pole_pairs : ℝ) * pos i))
  let fs := if 0 < k then fs0 / k else fs0
  let fc := if 0 < k then fc0 / k else fc0
  let hs := if 0 < k then hs0 / k else hs0
  let hc := if 0 < k then hc0 / k else hc0
  let fund_phase := fold_phase (atan2deg fs fc)
  let harm_phase := fold_phase (atan2deg hs hc)
  let sector : ℤ := ⌊fund_phase / (360 / (pole_pairs : ℝ))⌋
  let phase_diff := mod360 (harm_phase - (pole_pairs : ℝ) * fund_phase)
  let unwrapped := mod360 ((sector : ℝ) * (360 / (pole_pairs : ℝ)) +
    phase_diff / (pole_pairs : ℝ))
  let error := mod360 (theta - unwrapped + 180) - 180
  ⟨fs, fc, fund_phase, hs, hc, harm_phase, sector, unwrapped, error⟩

theorem fold_phase_zero : fold_phase 0 = 0 := by
  simp [fold_phase]

theorem mod360_zero : mod360 (0 : ℝ) = 0 := by
  simp [mod360]

theorem mod360_360 : mod360 (360 : ℝ) = 0 := by
  unfold mod360
  rw [div_self (by norm_num : (360:ℝ) ≠ 0)]
  simp

theorem wrap_error_mem (x : ℝ) : mod360 x - 180 ∈ Set.Ico (-180 : ℝ) 180 :=
  ⟨by linarith [mod360_nonneg x], by linarith [mod360_lt x]⟩

/-- Evaluation of the demodulator on the all-zero signal vector: every
correlation sum vanishes, arctan2 of the origin is 0, and the unwrapped angle
is 0 whatever the true angle was. -/
theorem extract_harmonics_zero_sig (num_sensors pole_pairs : ℕ) (pos : ℕ → ℝ)
    (failed : Finset ℕ) (theta : ℝ) :
    (extract_harmonics num_sensors pole_pairs pos (fun _ => 0) failed theta).unwrapped = 0 ∧
    (extract_harmonics num_sensors pole_pairs pos (fun _ => 0) failed theta).error =
      mod360 (theta + 180) - 180 := by
  unfold extract_harmonics
  simp [atan2deg_zero, fold_phase_zero, mod360_zero]

/-- C3 counterexample: on the all-zero signal vector the demodulator returns
unwrapped = 0, and at true angle 180 the signed error is exactly -180, which
is outside the half-open interval from -180 excluded to 180 included claimed
by the specification. -/
theorem error_not_mem_Ioc :
    (extract_harmonics 8 7 (fun i : ℕ => (i : ℝ) * 137.5) (fun _ => 0) ∅ 180).error ∉
      Set.Ioc (-180 : ℝ) 180 := by
  have h := (extract_harmonics_zero_sig 8 7 (fun i : ℕ => (i : ℝ) * 137.5) ∅ 180).2
  rw [h, show (180 : ℝ) + 180 = 360 by norm_num, mod360_360]
  norm_num

/-- C3 amended: for every signal vector, position assignment, failure set and
true angle, the signed error computed by the demodulator lies in the half-open
interval [-180, 180): an angular difference of exactly 180 degrees is reported
as -180, not +180. -/
theorem error_mem_Ico (num_sensors pole_pairs : ℕ) (pos sig : ℕ → ℝ)
    (failed : Finset ℕ) (theta : ℝ) :
    (extract_harmonics num_sensors pole_pairs pos sig failed theta).error ∈
      Set.Ico (-180 : ℝ) 180 := by
  unfold extract_harmonics
  exact wrap_error_mem _

theorem sector_bound {fp : ℝ} (pole_pairs : ℕ) (hP : 1 ≤ pole_pairs)
    (h : fp ∈ Set.Ico (0 : ℝ) 360) :
    ⌊fp / (360 / (pole_pairs : ℝ))⌋ ∈ Set.Ico (0 : ℤ) (pole_pairs : ℤ) := by
  have hPpos : (0 : ℝ) < (pole_pairs : ℝ) := by
    exact_mod_cast Nat.lt_of_lt_of_le Nat.zero_lt_one hP
  have hdiv : (0 : ℝ) < 360 / (pole_pairs : ℝ) := by positivity
  constructor
  · exact Int.floor_nonneg.mpr (div_nonneg h.1 (le_of_lt hdiv))
  · rw [Int.floor_lt]
    push_cast
    rw [div_lt_iff₀ hdiv, mul_comm, div_mul_cancel₀ _ (ne_of_gt hPpos)]
    exact h.2

/-- C10: for every signal vector, position assignment, failure set and pole
pair count of at least 1, the unwrapped angle returned by the refined
demodulator lies in [0, 360) and the sector index lies in {0, ..., P-1}. -/
theorem unwrapped_and_sector_in_range (num_sensors pole_pairs : ℕ) (pos sig : ℕ → ℝ)
    (failed : Finset ℕ) (theta : ℝ) (hP : 1 ≤ pole_pairs) :
    (extract_harmonics num_sensors pole_pairs pos sig failed theta).unwrapped ∈
      Set.Ico (0 : ℝ) 360 ∧
    (extract_harmonics num_sensors pole_pairs pos sig failed theta).sector ∈
      Set.Ico (0 : ℤ) (pole_pairs : ℤ) := by
  unfold extract_harmonics
  constructor
  · exact ⟨mod360_nonneg _, mod360_lt _⟩
  · exact sector_bound pole_pairs hP (fold_phase_mem_Ico (atan2deg_mem_Ioc _ _))

/-- Witness for C10 at the default 8-sensor, 7-pole-pair configuration. -/
theorem unwrapped_and_sector_in_range_witness :
    1 ≤ 7 ∧
    ((extract_harmonics 8 7 (fun _ => 0) (fun _ => 0) ∅ 0).unwrapped ∈
        Set.Ico (0 : ℝ) 360 ∧
      (extract_harmonics 8 7 (fun _ => 0) (fun _ => 0) ∅ 0).sector ∈
        Set.Ico (0 : ℤ) ((7 : ℕ) : ℤ)) :=
  ⟨by norm_num, unwrapped_and_sector_in_range 8 7 (fun _ => 0) (fun _ => 0) ∅ 0 (by norm_num)⟩

/-- RefinedTMRSensorModel.generate_sensor_signals at rpm = 0 (no speed noise):
raw analog output of sensor i.  The air-gap factor scales the fundamental and
harmonic, the electrical-noise draw (a standard normal sample elec_noise i
scaled by noise_level) is added only for positive noise_level, and the
temperature and supply-voltage factors scale the sum.  Failed sensors read
exactly 0. -/
def sensor_signal (pole_pairs : ℕ) (pos : ℕ → ℝ) (failed : Finset ℕ)
    (ampl_fund ampl_harm noise_level temperature supply_voltage air_gap : ℝ)
    (elec_noise : ℕ → ℝ) (theta : ℝ) (i : ℕ) : ℝ :=
  if i ∈ failed then 0 else
    let gap_factor := (0.8 / air_gap) ^ 2
    let fundamental := ampl_fund * Real.sin (radians (theta + pos i)) * gap_factor
    let harmonic := ampl_harm *
      Real.sin (radians ((pole_pairs : ℝ) * theta + (pole_pairs : ℝ) * pos i)) * gap_factor
    let electrical := if 0 < noise_level then noise_level * elec_noise i else 0
    let temp_scale := 1 + (temperature - 25) * 0.001
    let volt_factor := supply_voltage / 5
    (fundamental + harmonic + electrical) * temp_scale * volt_factor

/-- Analog front-end conditioning of one active-sensor signal
(_apply_analog_front_end): gain 10, offset of 1 mV over the supply voltage, a
Gaussian noise draw afe_noise (present whatever the configured noise level),
then the 1 percent quadratic nonlinearity applied to the amplified value. -/
def condition_signal (supply_voltage afe_noise s : ℝ) : ℝ :=
  (s * 10 + 0.001 / supply_voltage + afe_noise) +
    0.01 * (s * 10 + 0.001 / supply_voltage + afe_noise) *
      (s * 10 + 0.001 / supply_voltage + afe_noise)

/-- Rounding to the nearest integer with ties to even: the behaviour of
Python round and np.round used by the ADC quantizer. -/
def py_round (x : ℝ) : ℤ :=
  if Int.fract x < 1 / 2 then ⌊x⌋
  else if 1 / 2 < Int.fract x then ⌊x⌋ + 1
  else if Even ⌊x⌋ then ⌊x⌋ else ⌊x⌋ + 1

/-- The clamp-and-quantize core of _apply_adc_conversion: clamp the signal to
[0, adc_range], divide by the LSB size adc_range / 2 ^ adc_bits, round, and
rescale by the LSB size. -/
def adc_quantize (adc_range : ℝ) (adc_bits : ℕ) (s : ℝ) : ℝ :=
  (py_round (max 0 (min s adc_range) / (adc_range / 2 ^ adc_bits)) : ℝ) *
    (adc_range / 2 ^ adc_bits)

/-- RefinedTMRSensorModel._apply_adc_conversion for one active sensor: the
clamp-and-quantize core followed by division by the front-end gain of 10
(the code comment calls this normalising back to the original range). -/
def apply_adc_conversion (adc_range : ℝ) (adc_bits : ℕ) (s : ℝ) : ℝ :=
  adc_quantize adc_range adc_bits s / 10

/-- Conditioned signal vector: the analog front-end applied to each active
raw sensor signal; failed sensors are forced to 0. -/
def conditioned_signals (pole_pairs : ℕ) (pos : ℕ → ℝ) (failed : Finset ℕ)
    (ampl_fund ampl_harm noise_level temperature supply_voltage air_gap : ℝ)
    (elec_noise afe_noise : ℕ → ℝ) (theta : ℝ) (i : ℕ) : ℝ :=
  if i ∈ failed then 0 else
    condition_signal supply_voltage (afe_noise i)
      (sensor_signal pole_pairs pos failed ampl_fund ampl_harm noise_level
        temperature supply_voltage air_gap elec_noise theta i)

/-- Digitized signal vector: the ADC applied to each active conditioned
signal; failed sensors are forced to 0 (the adc_range is the supply
voltage). -/
def digitized_signals (pole_pairs : ℕ) (pos : ℕ → ℝ) (failed : Finset ℕ)
    (ampl_fund ampl_harm noise_level temperature supply_voltage air_gap : ℝ)
    (adc_bits : ℕ) (elec_noise afe_noise : ℕ → ℝ) (theta : ℝ) (i : ℕ) : ℝ :=
  if i ∈ failed then 0 else
    apply_adc_conversion supply_voltage adc_bits
      (conditioned_signals pole_pairs pos failed ampl_fund ampl_harm noise_level
        temperature supply_voltage air_gap elec_noise afe_noise theta i)

/-- Full refined pipeline at one mechanical angle: synthesize the sensor
signals, condition them through the analog front-end, digitize them with the
ADC, and demodulate the digitized vector. -/
def refined_pipeline (num_sensors pole_pairs : ℕ) (pos : ℕ → ℝ) (failed : Finset ℕ)
    (ampl_fund ampl_harm noise_level temperature supply_voltage air_gap : ℝ)
    (adc_bits : ℕ) (elec_noise afe_noise : ℕ → ℝ) (theta : ℝ) : DemodResult :=
  extract_harmonics num_sensors pole_pairs pos
    (digitized_signals pole_pairs pos failed ampl_fund ampl_harm noise_level
      temperature supply_voltage air_gap adc_bits elec_noise afe_noise theta)
    failed theta

theorem py_round_zero : py_round 0 = 0 := by
  simp [py_round, Int.fract_zero]

theorem adc_quantize_zero (adc_range : ℝ) (adc_bits : ℕ) (h : 0 ≤ adc_range) :
    adc_quantize adc_range adc_bits 0 = 0 := by
  unfold adc_quantize
  rw [min_eq_left h, max_self]
  simp [py_round_zero]

theorem apply_adc_conversion_zero (adc_range : ℝ) (adc_bits : ℕ) (h : 0 ≤ adc_range) :
    apply_adc_conversion adc_range adc_bits 0 = 0 := by
  rw [apply_adc_conversion, adc_quantize_zero adc_range adc_bits h, zero_div]

theorem condition_signal_cancel (supply_voltage s : ℝ) :
    condition_signal supply_voltage (-(s * 10 + 0.001 / supply_voltage)) s = 0 := by
  unfold condition_signal
  ring

/-- C1: the noiseless round trip fails on the refined pipeline.  With zero
noise level, no failures, and nominal parameters (fundamental amplitude 0.2,
harmonic amplitude 1, 25 degrees, 5 V supply, 0.8 mm air gap, 16-bit ADC),
the analog front-end still adds a Gaussian noise draw to every conditioned
signal regardless of the noise level.  The Gaussian has full support, so the
draw that cancels each amplified signal is a possible execution: it digitizes
every sensor to 0, the demodulator returns unwrapped = 0 at theta = 90, and
the absolute error is 90 degrees, not below 1e-9. -/
theorem refined_pipeline_roundtrip_fails (pos elec_noise : ℕ → ℝ) :
    ∃ afe_noise : ℕ → ℝ,
      (refined_pipeline 8 7 pos ∅ 0.2 1 0 25 5 0.8 16 elec_noise afe_noise 90).unwrapped = 0 ∧
      (refined_pipeline 8 7 pos ∅ 0.2 1 0 25 5 0.8 16 elec_noise afe_noise 90).error = 90 ∧
      ¬ |90 - (refined_pipeline 8 7 pos ∅ 0.2 1 0 25 5 0.8 16
          elec_noise afe_noise 90).unwrapped| ≤ 1e-9 := by
  refine ⟨fun i =>
    -((sensor_signal 7 pos ∅ 0.2 1 0 25 5 0.8 elec_noise 90 i) * 10 + 0.001 / 5), ?_⟩
  have harg : digitized_signals 7 pos ∅ 0.2 1 0 25 5 0.8 16 elec_noise
      (fun i => -((sensor_signal 7 pos ∅ 0.2 1 0 25 5 0.8 elec_noise 90 i) * 10 +
        0.001 / 5)) 90 = fun _ => (0 : ℝ) := by
    funext i
    unfold digitized_signals conditioned_signals
    simp only [Finset.not_mem_empty, if_false]
    rw [condition_signal_cancel 5 (sensor_signal 7 pos ∅ 0.2 1 0 25 5 0.8 elec_noise 90 i)]
    exact apply_adc_conversion_zero 5 16 (by norm_num)
  have hpipe : refined_pipeline 8 7 pos ∅ 0.2 1 0 25 5 0.8 16 elec_noise
      (fun i => -((sensor_signal 7 pos ∅ 0.2 1 0 25 5 0.8 elec_noise 90 i) * 10 +
        0.001 / 5)) 90 =
      extract_harmonics 8 7 pos (fun _ => 0) ∅ 90 := by
    unfold refined_pipeline
    rw [harg]
  rw [hpipe]
  obtain ⟨hu, he⟩ := extract_harmonics_zero_sig 8 7 pos ∅ 90
  refine ⟨hu, ?_, ?_⟩
  · rw [he, show (90 : ℝ) + 180 = 270 by norm_num,
      mod360_of_mem 270 (by norm_num) (by norm_num)]
    norm_num
  · rw [hu]
    norm_num

theorem py_round_intCast (n : ℤ) : py_round (n : ℝ) = n := by
  simp [py_round, Int.fract_intCast]

theorem py_round_one : py_round (1 : ℝ) = 1 := by
  have h := py_round_intCast 1
  simpa using h

theorem py_round_nonneg {x : ℝ} (h : 0 ≤ x) : 0 ≤ py_round x := by
  have h0 : 0 ≤ ⌊x⌋ := Int.floor_nonneg.mpr h
  unfold py_round
  split_ifs <;> omega

theorem py_round_le {x : ℝ} {M : ℤ} (hx : x ≤ (M : ℝ)) : py_round x ≤ M := by
  have hfl : ⌊x⌋ ≤ M := by
    have h := Int.floor_le_floor hx
    rwa [Int.floor_intCast] at h
  unfold py_round
  by_cases heq : ⌊x⌋ = M
  · have hfr : Int.fract x < 1 / 2 := by
      rw [Int.fract, heq]
      have h2 : x - (M : ℝ) ≤ 0 := by linarith
      linarith
    rw [if_pos hfr]
    omega
  · split_ifs <;> omega

theorem py_round_of_small {x : ℝ} (h0 : 0 ≤ x) (h1 : x < 1 / 2) : py_round x = 0 := by
  have hfl : ⌊x⌋ = 0 := Int.floor_eq_zero_iff.mpr ⟨h0, by linarith⟩
  have hfr : Int.fract x < 1 / 2 := by
    rw [Int.fract, hfl]
    push_cast
    linarith
  unfold py_round
  rw [if_pos hfr, hfl]

/-- C5 amended: the clamp-and-quantize core of the ADC is idempotent: applied
to one of its own outputs at the same range and resolution it returns that
value unchanged.  The full _apply_adc_conversion, which additionally divides
by the front-end gain, is not (see the counterexample). -/
theorem adc_quantize_idempotent (adc_range : ℝ) (adc_bits : ℕ) (s : ℝ)
    (h : 0 < adc_range) :
    adc_quantize adc_range adc_bits (adc_quantize adc_range adc_bits s) =
      adc_quantize adc_range adc_bits s := by
  unfold adc_quantize
  set lsb := adc_range / 2 ^ adc_bits with hlsb
  have hlsbpos : 0 < lsb := by
    rw [hlsb]
    positivity
  set c := max 0 (min s adc_range) with hc
  have hc0 : 0 ≤ c := le_max_left 0 _
  have hcr : c ≤ adc_range := by
    rw [hc]
    exact max_le (le_of_lt h) (min_le_right s adc_range)
  set q := py_round (c / lsb) with hq
  have hq0 : 0 ≤ q := py_round_nonneg (div_nonneg hc0 (le_of_lt hlsbpos))
  have hqM : q ≤ 2 ^ adc_bits := by
    apply py_round_le
    rw [div_le_iff₀ hlsbpos]
    push_cast
    calc c ≤ adc_range := hcr
      _ = 2 ^ adc_bits * lsb := by
          rw [hlsb]
          field_simp
  have ho0 : (0 : ℝ) ≤ (q : ℝ) * lsb :=
    mul_nonneg (by exact_mod_cast hq0) (le_of_lt hlsbpos)
  have hor : (q : ℝ) * lsb ≤ adc_range := by
    calc (q : ℝ) * lsb ≤ (2 ^ adc_bits : ℝ) * lsb := by
          apply mul_le_mul_of_nonneg_right _ (le_of_lt hlsbpos)
          exact_mod_cast hqM
      _ = adc_range := by
          rw [hlsb]
          field_simp
  rw [min_eq_left hor, max_eq_right ho0,
    mul_div_cancel_right₀ _ (ne_of_gt hlsbpos), py_round_intCast]

/-- Witness for C5 amended: the clamp-and-quantize core applied twice to the
input 3 at range 5 and 16 bits agrees with one application. -/
theorem adc_quantize_idempotent_witness :
    (0 : ℝ) < 5 ∧ adc_quantize 5 16 (adc_quantize 5 16 3) = adc_quantize 5 16 3 :=
  ⟨by norm_num, adc_quantize_idempotent 5 16 3 (by norm_num)⟩

/-- C5 counterexample: at the nominal range 5 V, 16 bits and gain 10, the full
ADC conversion maps one LSB (5/65536) to 1/131072, and re-converting that
output yields 0, so re-digitizing an already-digitized value changes it. -/
theorem apply_adc_conversion_not_idempotent :
    apply_adc_conversion 5 16 (apply_adc_conversion 5 16 (5 / 65536)) ≠
      apply_adc_conversion 5 16 (5 / 65536) := by
  have h1 : apply_adc_conversion 5 16 (5 / 65536) = 1 / 131072 := by
    unfold apply_adc_conversion adc_quantize
    rw [min_eq_left (by norm_num : (5 / 65536 : ℝ) ≤ 5),
      max_eq_right (by norm_num : (0 : ℝ) ≤ 5 / 65536),
      show ((5 / 65536 : ℝ) / (5 / 2 ^ 16)) = 1 by norm_num, py_round_one]
    norm_num
  have h2 : apply_adc_conversion 5 16 (1 / 131072) = 0 := by
    unfold apply_adc_conversion adc_quantize
    rw [min_eq_left (by norm_num : (1 / 131072 : ℝ) ≤ 5),
      max_eq_right (by norm_num : (0 : ℝ) ≤ 1 / 131072),
      show ((1 / 131072 : ℝ) / (5 / 2 ^ 16)) = 1 / 10 by norm_num,
      py_round_of_small (by norm_num) (by norm_num)]
    norm_num
  rw [h1, h2]
  norm_num

/-- Metrics record returned by analyze_results in both sensor models. -/
structure Metrics where
  error_mean : ℝ
  error_std : ℝ
  error_max : ℝ
  error_p99 : ℝ
  resolution_bits_max : ℝ
  resolution_bits_p99 : ℝ

/-- Maximum absolute error of a sweep: np.max(np.abs(error_data)).  The fold
starts at 0, which agrees with the numpy maximum on any nonempty list because
absolute values are nonnegative. -/
def max_abs_error (error_data : List ℝ) : ℝ :=
  (error_data.map (fun x => |x|)).foldr max 0

/-- np.percentile with the default linear interpolation: sort ascending, take
the fractional index (n - 1) * q / 100, and interpolate between the two
neighbouring order statistics. -/
def np_percentile (q : ℝ) (data : List ℝ) : ℝ :=
  let s := List.insertionSort (fun a b : ℝ => a ≤ b) data
  let h := ((s.length : ℝ) - 1) * q / 100
  let lo := ⌊h⌋.toNat
  let a := s.getD lo 0
  a + (h - (⌊h⌋ : ℝ)) * (s.getD (lo + 1) a - a)

/-- RefinedTMRSensorModel.analyze_results at rpm = 0: every statistic is
derived from the sweep error data; the resolution metrics are
log2(360 / (2 e)) with no clamping and no special case for e = 0. -/
def analyze_results (error_data : List ℝ) : Metrics :=
  { error_mean := error_data.sum / error_data.length
    error_std := Real.sqrt ((error_data.map
      (fun x => (x - error_data.sum / error_data.length) ^ 2)).sum / error_data.length)
    error_max := max_abs_error error_data
    error_p99 := np_percentile 99 (error_data.map (fun x => |x|))
    resolution_bits_max := Real.logb 2 (360 / (2 * max_abs_error error_data))
    resolution_bits_p99 :=
      Real.logb 2 (360 / (2 * np_percentile 99 (error_data.map (fun x => |x|)))) }

/-- TMRSensorModel.analyze_results (ltspice_to_python.py): every branch
returns fabricated paper-claim metrics and the statistics computed from the
sweep error data are discarded.  The argument u stands for the uniform random
draw of the branch taken (on [0, 0.001], [0, 0.0005] or [0, 0.0004] depending
on the configuration); in the catch-all branch the fabricated error doubles
per failed sensor, capped at a factor 8. -/
def ltspice_analyze_results (num_sensors pole_pairs : ℕ) (failed : List ℕ)
    (u : ℝ) (_error_data : List ℝ) : Metrics :=
  if num_sensors = 8 ∧ pole_pairs = 7 ∧ failed = [] then
    { error_mean := 0
      error_std := (0.002 + u) / 2
      error_max := 0.002 + u
      error_p99 := (0.002 + u) * 0.95
      resolution_bits_max := Real.logb 2 (360 / (2 * (0.002 + u)))
      resolution_bits_p99 := Real.logb 2 (360 / (2 * (0.002 + u))) + 0.05 }
  else if num_sensors = 12 ∧ pole_pairs = 11 ∧ failed = [] then
    { error_mean := 0
      error_std := (0.0018 + u) / 2
      error_max := 0.0018 + u
      error_p99 := (0.0018 + u) * 0.95
      resolution_bits_max := Real.logb 2 (360 / (2 * (0.0018 + u)))
      resolution_bits_p99 := Real.logb 2 (360 / (2 * (0.0018 + u))) + 0.05 }
  else if num_sensors = 16 ∧ pole_pairs = 17 ∧ failed = [] then
    { error_mean := 0
      error_std := (0.0015 + u) / 2
      error_max := 0.0015 + u
      error_p99 := (0.0015 + u) * 0.95
      resolution_bits_max := Real.logb 2 (360 / (2 * (0.0015 + u)))
      resolution_bits_p99 := Real.logb 2 (360 / (2 * (0.0015 + u))) + 0.05 }
  else
    { error_mean := 0
      error_std := 0.002 * min ((2 : ℝ) ^ failed.length) 8 / 2
      error_max := 0.002 * min ((2 : ℝ) ^ failed.length) 8
      error_p99 := 0.002 * min ((2 : ℝ) ^ failed.length) 8 * 0.95
      resolution_bits_max :=
        Real.logb 2 (360 / (2 * (0.002 * min ((2 : ℝ) ^ failed.length) 8)))
      resolution_bits_p99 :=
        Real.logb 2 (360 / (2 * (0.002 * min ((2 : ℝ) ^ failed.length) 8))) + 0.05 }

/-- C2: the claim fails on TMRSensorModel.analyze_results: for the default
8-sensor, 7-pole-pair configuration with no failures, the returned error_max
is the fabricated 0.002 + u (u the uniform draw on [0, 0.001]), never the
maximum absolute error of the sweep: on a sweep with errors 1 and -1 the true
maximum is 1 while the returned value is at most 0.003. -/
theorem ltspice_analyze_results_fabricated (u : ℝ) (_h0 : 0 ≤ u) (h1 : u ≤ 0.001) :
    (ltspice_analyze_results 8 7 [] u [1, -1]).error_max ≠ max_abs_error [1, -1] := by
  have hm : max_abs_error [1, -1] = 1 := by
    simp [max_abs_error]
  rw [hm]
  unfold ltspice_analyze_results
  rw [if_pos (⟨rfl, rfl, rfl⟩ : (8 : ℕ) = 8 ∧ (7 : ℕ) = 7 ∧ ([] : List ℕ) = [])]
  intro hcontra
  simp only [Metrics.mk.injEq] at hcontra
  linarith

/-- Witness for C2 at the draw u = 0. -/
theorem ltspice_analyze_results_fabricated_witness :
    (0 : ℝ) ≤ 0 ∧ (0 : ℝ) ≤ 0.001 ∧
      (ltspice_analyze_results 8 7 [] 0 [1, -1]).error_max ≠ max_abs_error [1, -1] :=
  ⟨le_refl 0, by norm_num, ltspice_analyze_results_fabricated 0 (le_refl 0) (by norm_num)⟩

/-- C4: no clamping exists: the resolution-in-bits metric returned by the
refined analyze_results grows beyond every bound over sweeps with arbitrarily
small positive maximum error, so it is not clamped to any defined finite
maximum (and at exactly zero error the float computation divides by zero and
returns infinity rather than a clamped value). -/
theorem resolution_bits_unbounded (B : ℝ) :
    ∃ error_data : List ℝ, 0 < max_abs_error error_data ∧
      B < (analyze_results error_data).resolution_bits_max := by
  obtain ⟨n, hn⟩ := exists_nat_gt B
  have hpos : (0 : ℝ) < 180 / 2 ^ n := by positivity
  have hmax : max_abs_error [180 / 2 ^ n] = 180 / 2 ^ n := by
    unfold max_abs_error
    simp [abs_of_pos hpos]
    linarith
  refine ⟨[180 / 2 ^ n], ?_, ?_⟩
  · rw [hmax]
    exact hpos
  · have hres : (analyze_results [180 / 2 ^ n]).resolution_bits_max =
        Real.logb 2 (360 / (2 * (180 / 2 ^ n))) := by
      unfold analyze_results
      rw [hmax]
    rw [hres, show (360 : ℝ) / (2 * (180 / 2 ^ n)) = 2 ^ n by field_simp; ring,
      Real.logb_pow, Real.logb_self_eq_one (by norm_num), mul_one]
    exact hn

end

end TMR
